import Mathlib

set_option maxHeartbeats 1000000

namespace ScreenShare

/-- One entry of the member array a room maps to: the object with fields
    id and username that the create-room and join-room handlers of
    server.js push into the rooms store. The username field mirrors a
    JavaScript value that may be undefined, hence Option. -/
structure Member where
  id : Nat
  username : Option String
deriving DecidableEq, Repr

/-- Per-connection state: whether the socket is still connected, the
    roomCode and username attributes the handlers attach to the socket
    object (undefined until set, hence Option), and the list of socket.io
    rooms this socket has joined via socket.join. -/
structure Conn where
  connected : Bool
  roomCode : Option String
  username : Option String
  sioRooms : List String
deriving DecidableEq, Repr

/-- The whole server state of server.js: the rooms object (an ordered
    association of room code to member array) and the set of sockets. -/
structure ServerState where
  rooms : List (String × List Member)
  conns : List (Nat × Conn)
deriving DecidableEq, Repr

/-- Association-list lookup, mirroring JavaScript object indexing. -/
def aget {α β : Type} [DecidableEq α] : List (α × β) → α → Option β
  | [], _ => none
  | (k, v) :: rest, a => if k = a then some v else aget rest a

/-- Association-list assignment, mirroring JavaScript object key
    assignment: an existing key keeps its position and gets the new
    value, a new key is appended at the end. -/
def aset {α β : Type} [DecidableEq α] : List (α × β) → α → β → List (α × β)
  | [], a, b => [(a, b)]
  | (k, v) :: rest, a, b => if k = a then (a, b) :: rest else (k, v) :: aset rest a b

/-- Association-list key removal, mirroring the JavaScript delete operator. -/
def adel {α β : Type} [DecidableEq α] (l : List (α × β)) (a : α) : List (α × β) :=
  l.filter (fun p => decide (p.1 ≠ a))

/-- Every outbound socket.io event server.js emits, with its payload. -/
inductive OutEvent where
  | roomCreated (code : String)
  | updateUserList (users : List Member)
  | userJoined (user : Member)
  | joinedRoom (code : String)
  | joinError (msg : String)
  | shareRequestReceived (requesterId : Nat) (requesterUsername : Option String)
  | shareRejected (rejecterId : Nat) (rejecterUsername : Option String)
  | controlRequestReceived (requesterId : Nat) (requesterUsername : Option String)
  | controlAccepted (targetId : Nat)
  | controlRejected (rejecterUsername : Option String)
  | sharerStarted (sharerId : Option Nat)
  | webrtcOffer (offer : Option String) (fromId : Option Nat)
  | webrtcAnswer (answer : Option String) (fromId : Nat)
  | webrtcCandidate (candidate : Option String) (fromId : Nat)
  | newChatMessage (username : String) (message : Option String)
  | userLeft (user : Member)
  | shareStopped
deriving DecidableEq, Repr

/-- io.to(code).emit(ev): the event is delivered to every connected
    socket that has joined the socket.io room named code. -/
def ioTo (s : ServerState) (code : String) (ev : OutEvent) : List (Nat × OutEvent) :=
  (s.conns.filter (fun pc => pc.2.connected && decide (code ∈ pc.2.sioRooms))).map
    (fun pc => (pc.1, ev))

/-- socket.to(code).emit(ev): like io.to but excluding the sender. -/
def socketTo (s : ServerState) (code : String) (sender : Nat) (ev : OutEvent) :
    List (Nat × OutEvent) :=
  (s.conns.filter
      (fun pc => decide (pc.1 ≠ sender) && pc.2.connected && decide (code ∈ pc.2.sioRooms))).map
    (fun pc => (pc.1, ev))

/-- io.to(socketId).emit(ev) for a target socket id taken from a payload:
    every socket is alone in the socket.io room named by its own id while
    connected, so the event reaches exactly that socket if it is still
    connected, and nobody otherwise. A missing target id reaches nobody. -/
def unicastOpt (s : ServerState) (t? : Option Nat) (ev : OutEvent) : List (Nat × OutEvent) :=
  match t? with
  | none => []
  | some t =>
    match aget s.conns t with
    | some cn => if cn.connected then [(t, ev)] else []
    | none => []

def isConnected (s : ServerState) (sid : Nat) : Bool :=
  match aget s.conns sid with
  | some cn => cn.connected
  | none => false

/-- socket.roomCode read off the socket object. -/
def sessRoomCode (s : ServerState) (sid : Nat) : Option String :=
  match aget s.conns sid with
  | some cn => cn.roomCode
  | none => none

/-- socket.username read off the socket object. -/
def sessUsername (s : ServerState) (sid : Nat) : Option String :=
  match aget s.conns sid with
  | some cn => cn.username
  | none => none

structure CreatePayload where
  username : Option String
deriving DecidableEq, Repr

structure JoinPayload where
  roomCode : Option String
  username : Option String
deriving DecidableEq, Repr

structure TargetPayload where
  targetId : Option Nat
deriving DecidableEq, Repr

structure RequesterPayload where
  requesterId : Option Nat
deriving DecidableEq, Repr

structure OfferPayload where
  offer : Option String
  toId : Option Nat
  fromId : Option Nat
deriving DecidableEq, Repr

structure AnswerPayload where
  answer : Option String
  toId : Option Nat
deriving DecidableEq, Repr

structure CandidatePayload where
  candidate : Option String
  toId : Option Nat
deriving DecidableEq, Repr

structure ChatPayload where
  message : Option String
deriving DecidableEq, Repr

/-- A new socket.io connection: a fresh socket id with no room, no
    username and no joined rooms. Socket ids are unique, so a connect
    for an id already seen is a no-op of the model. -/
def connectH (s : ServerState) (sid : Nat) : ServerState :=
  match aget s.conns sid with
  | some _ => s
  | none => { s with conns := s.conns ++ [(sid, ⟨true, none, none, []⟩)] }

/-- The create-room handler of server.js. The nanoid(6) result is passed
    in as the code argument. The handler stores a singleton member array
    under that code unconditionally, joins the socket.io room, records
    roomCode and username on the socket, acknowledges the creator and
    broadcasts the member list to the room. -/
def createRoomH (s : ServerState) (sid : Nat) (code : String) (p : CreatePayload) :
    ServerState × List (Nat × OutEvent) :=
  match aget s.conns sid with
  | none => (s, [])
  | some cn =>
    let user : Member := ⟨sid, p.username⟩
    let s' : ServerState :=
      { rooms := aset s.rooms code [user]
        conns := aset s.conns sid
          { cn with roomCode := some code, username := p.username,
                    sioRooms := code :: cn.sioRooms } }
    (s', (sid, OutEvent.roomCreated code) :: ioTo s' code (OutEvent.updateUserList [user]))

/-- The property names every plain JavaScript object literal inherits
    from Object.prototype. The rooms store is such a literal, so the
    truthiness test rooms[roomCode] passes for these names even when no
    room with that code exists. All of them are longer than the six
    characters nanoid draws, so no generated room code ever shadows one
    with an own property. -/
def protoProps : List String :=
  ["constructor", "hasOwnProperty", "isPrototypeOf", "propertyIsEnumerable",
   "toLocaleString", "toString", "valueOf", "__proto__", "__defineGetter__",
   "__defineSetter__", "__lookupGetter__", "__lookupSetter__"]

/-- Projection of a fallible handler result: a crashed handler has
    mutated nothing and delivered nothing, the process dying with the
    store in its pre-event state. -/
def resultOrFrozen (s : ServerState)
    (r? : Option (ServerState × List (Nat × OutEvent))) :
    ServerState × List (Nat × OutEvent) :=
  match r? with
  | some r => r
  | none => (s, [])

/-- The join-room handler of server.js. The existence test is the JS
    truthiness of rooms[roomCode], which consults the prototype chain:
    an own key is a real room and the member is appended, the socket
    joins the room and records its session, the others are told
    user-joined, the joiner gets joined-room, and all get the updated
    member list; a code naming an inherited Object.prototype property is
    truthy too, and the handler then throws an uncaught TypeError at
    rooms[roomCode].push before mutating anything (modelled none); any
    other code takes the else branch and only a join-error goes back. -/
def joinRoomH (s : ServerState) (sid : Nat) (p : JoinPayload) :
    Option (ServerState × List (Nat × OutEvent)) :=
  match p.roomCode with
  | none => some (s, [(sid, OutEvent.joinError "Invalid room code.")])
  | some code =>
    match aget s.rooms code with
    | none =>
      if code ∈ protoProps then none
      else some (s, [(sid, OutEvent.joinError "Invalid room code.")])
    | some ms =>
      match aget s.conns sid with
      | none => some (s, [])
      | some cn =>
        let user : Member := ⟨sid, p.username⟩
        let newMs := ms ++ [user]
        let s' : ServerState :=
          { rooms := aset s.rooms code newMs
            conns := aset s.conns sid
              { cn with roomCode := some code, username := p.username,
                        sioRooms := code :: cn.sioRooms } }
        some (s', socketTo s' code sid (OutEvent.userJoined user)
              ++ [(sid, OutEvent.joinedRoom code)]
              ++ ioTo s' code (OutEvent.updateUserList newMs))

/-- The disconnect handler of server.js. The socket has already left all
    socket.io rooms and cannot receive anything anymore. If its recorded
    roomCode names an existing room, its entry is filtered out of the
    member array; the survivors are told user-left; then either the now
    empty room is deleted with no further emits, or the survivors get the
    updated member list and share-stopped. -/
def disconnectH (s : ServerState) (sid : Nat) : ServerState × List (Nat × OutEvent) :=
  match aget s.conns sid with
  | none => (s, [])
  | some cn =>
    let conns1 := aset s.conns sid { cn with connected := false, sioRooms := [] }
    match cn.roomCode with
    | none => (⟨s.rooms, conns1⟩, [])
    | some code =>
      if code = "" then (⟨s.rooms, conns1⟩, [])
      else
        match aget s.rooms code with
        | none => (⟨s.rooms, conns1⟩, [])
        | some ms =>
          let newMs := ms.filter (fun m => decide (m.id ≠ sid))
          let s2 : ServerState := ⟨aset s.rooms code newMs, conns1⟩
          let out1 :=
            match ms.find? (fun m => decide (m.id = sid)) with
            | some du => socketTo s2 code sid (OutEvent.userLeft du)
            | none => []
          if newMs.isEmpty then
            (⟨adel s2.rooms code, conns1⟩, out1)
          else
            (s2, out1 ++ ioTo s2 code (OutEvent.updateUserList newMs)
                      ++ ioTo s2 code OutEvent.shareStopped)

/-- The request-share handler: pure relay to the named target, with the
    requester identity injected from the socket itself. -/
def requestShareH (s : ServerState) (sid : Nat) (p : TargetPayload) :
    ServerState × List (Nat × OutEvent) :=
  (s, unicastOpt s p.targetId (OutEvent.shareRequestReceived sid (sessUsername s sid)))

/-- The reject-share handler: relay to the original requester if that
    socket still exists, with rejecter identity injected. -/
def rejectShareH (s : ServerState) (sid : Nat) (p : RequesterPayload) :
    ServerState × List (Nat × OutEvent) :=
  (s, unicastOpt s p.requesterId (OutEvent.shareRejected sid (sessUsername s sid)))

/-- The request-control handler: relay to the named target with requester
    identity injected from the socket. -/
def requestControlH (s : ServerState) (sid : Nat) (p : TargetPayload) :
    ServerState × List (Nat × OutEvent) :=
  (s, unicastOpt s p.targetId (OutEvent.controlRequestReceived sid (sessUsername s sid)))

/-- The accept-control handler: relay to the requester carrying the
    accepting socket id. -/
def acceptControlH (s : ServerState) (sid : Nat) (p : RequesterPayload) :
    ServerState × List (Nat × OutEvent) :=
  (s, unicastOpt s p.requesterId (OutEvent.controlAccepted sid))

/-- The reject-control handler: relay to the requester carrying only the
    rejecter username, no id field. -/
def rejectControlH (s : ServerState) (sid : Nat) (p : RequesterPayload) :
    ServerState × List (Nat × OutEvent) :=
  (s, unicastOpt s p.requesterId (OutEvent.controlRejected (sessUsername s sid)))

/-- The room-wide sharer-started notification at the top of the
    webrtc-offer handler: if socket.roomCode is truthy, the room is told
    sharer-started carrying the payload fromId. -/
def sharerNotify (s : ServerState) (sid : Nat) (fid : Option Nat) : List (Nat × OutEvent) :=
  match sessRoomCode s sid with
  | some code => if code = "" then [] else ioTo s code (OutEvent.sharerStarted fid)
  | none => []

/-- The webrtc-offer handler of server.js: if the sender has a roomCode
    the whole room is told sharer-started with the payload fromId, and
    the offer is relayed to toId carrying the payload fromId unchanged,
    not the socket id of the sender. -/
def webrtcOfferH (s : ServerState) (sid : Nat) (p : OfferPayload) :
    ServerState × List (Nat × OutEvent) :=
  (s, sharerNotify s sid p.fromId ++ unicastOpt s p.toId (OutEvent.webrtcOffer p.offer p.fromId))

/-- The webrtc-answer handler: relay to toId with fromId set to the
    sender socket id. -/
def webrtcAnswerH (s : ServerState) (sid : Nat) (p : AnswerPayload) :
    ServerState × List (Nat × OutEvent) :=
  (s, unicastOpt s p.toId (OutEvent.webrtcAnswer p.answer sid))

/-- The webrtc-candidate handler: relay to toId with fromId set to the
    sender socket id. -/
def webrtcCandidateH (s : ServerState) (sid : Nat) (p : CandidatePayload) :
    ServerState × List (Nat × OutEvent) :=
  (s, unicastOpt s p.toId (OutEvent.webrtcCandidate p.candidate sid))

/-- The send-chat-message handler: only if socket.roomCode and
    socket.username are both truthy is the message broadcast to the room
    with the stored username; otherwise nothing happens at all. -/
def sendChatMessageH (s : ServerState) (sid : Nat) (p : ChatPayload) :
    ServerState × List (Nat × OutEvent) :=
  match sessRoomCode s sid, sessUsername s sid with
  | some code, some un =>
    if code = "" ∨ un = "" then (s, [])
    else (s, ioTo s code (OutEvent.newChatMessage un p.message))
  | some _, none => (s, [])
  | none, _ => (s, [])

/-- The create-room handler as registered on the socket: the arrow
    destructures its payload argument, so a missing payload object makes
    the destructuring throw a TypeError that nothing catches; none models
    that uncaught throw. -/
def onCreateRoom (s : ServerState) (sid : Nat) (code : String) (p? : Option CreatePayload) :
    Option (ServerState × List (Nat × OutEvent)) :=
  match p? with
  | none => none
  | some p => some (createRoomH s sid code p)

/-- The join-room handler as registered on the socket, with the same
    destructuring of the payload argument as onCreateRoom; none covers
    both uncaught throws, the destructuring TypeError and the push
    TypeError on a prototype-inherited room code. -/
def onJoinRoom (s : ServerState) (sid : Nat) (p? : Option JoinPayload) :
    Option (ServerState × List (Nat × OutEvent)) :=
  match p? with
  | none => none
  | some p => joinRoomH s sid p

/-- The operations that mutate the rooms store, plus connection arrival.
    The code argument of createRoom is the nanoid(6) draw. -/
inductive Op where
  | connect (sid : Nat)
  | createRoom (sid : Nat) (code : String) (p : CreatePayload)
  | joinRoom (sid : Nat) (p : JoinPayload)
  | disconnect (sid : Nat)
deriving DecidableEq, Repr

def initState : ServerState := ⟨[], []⟩

/-- One event dispatch: socket.io only dispatches events of sockets that
    are currently connected. -/
def step (s : ServerState) : Op → ServerState
  | Op.connect sid => connectH s sid
  | Op.createRoom sid code p => if isConnected s sid then (createRoomH s sid code p).1 else s
  | Op.joinRoom sid p =>
    if isConnected s sid then (resultOrFrozen s (joinRoomH s sid p)).1 else s
  | Op.disconnect sid => if isConnected s sid then (disconnectH s sid).1 else s

/-- The server state after a sequence of operations from process start. -/
def run (ops : List Op) : ServerState := ops.foldl step initState

/-- The codes of all rooms whose member array lists the given socket id. -/
def roomsListing (s : ServerState) (sid : Nat) : List String :=
  (s.rooms.filter (fun r => r.2.any (fun m => decide (m.id = sid)))).map (fun r => r.1)

/-- The sender-identity field carried by an outbound event, if any. -/
def idField : OutEvent → Option Nat
  | OutEvent.shareRequestReceived r _ => some r
  | OutEvent.shareRejected r _ => some r
  | OutEvent.controlRequestReceived r _ => some r
  | OutEvent.controlAccepted t => some t
  | OutEvent.webrtcAnswer _ f => some f
  | OutEvent.webrtcCandidate _ f => some f
  | _ => none

/-- Every identity field the event carries names the given sender. -/
def identityOk (sid : Nat) (e : Nat × OutEvent) : Bool :=
  match idField e.2 with
  | some i => decide (i = sid)
  | none => true

/-- All deliveries of events of the given kind go to the given target. -/
def deliveredOnlyTo (t? : Option Nat) (isK : OutEvent → Bool) (out : List (Nat × OutEvent)) :
    Bool :=
  out.all (fun e => !isK e.2 || decide (some e.1 = t?))

def isShareReqEv : OutEvent → Bool
  | OutEvent.shareRequestReceived _ _ => true
  | _ => false

def isShareRejEv : OutEvent → Bool
  | OutEvent.shareRejected _ _ => true
  | _ => false

def isCtrlReqEv : OutEvent → Bool
  | OutEvent.controlRequestReceived _ _ => true
  | _ => false

def isCtrlAccEv : OutEvent → Bool
  | OutEvent.controlAccepted _ => true
  | _ => false

def isCtrlRejEv : OutEvent → Bool
  | OutEvent.controlRejected _ => true
  | _ => false

def isOfferEv : OutEvent → Bool
  | OutEvent.webrtcOffer _ _ => true
  | _ => false

def isAnswerEv : OutEvent → Bool
  | OutEvent.webrtcAnswer _ _ => true
  | _ => false

def isCandidateEv : OutEvent → Bool
  | OutEvent.webrtcCandidate _ _ => true
  | _ => false

/-- Every record of this socket id among the sockets that is still
    connected has joined the socket.io room named code. -/
def ConnOK (conns : List (Nat × Conn)) (code : String) (m : Member) : Prop :=
  ∀ q ∈ conns, q.1 = m.id → q.2.connected = true → code ∈ q.2.sioRooms

/-- The reachability invariant of the server state: member arrays are
    never empty, room codes and socket ids are store keys hence unique,
    every listed member id has a socket record, and every connected
    listed member has joined the socket.io room of its room. -/
def Inv (s : ServerState) : Prop :=
  (∀ r ∈ s.rooms, r.2 ≠ []) ∧
  (s.rooms.map Prod.fst).Nodup ∧
  (s.conns.map Prod.fst).Nodup ∧
  (∀ r ∈ s.rooms, ∀ m ∈ r.2, ∃ cn, aget s.conns m.id = some cn) ∧
  (∀ r ∈ s.rooms, ∀ m ∈ r.2, ConnOK s.conns r.1 m)

theorem aget_mem {α β : Type} [DecidableEq α] {l : List (α × β)} {a : α} {b : β}
    (h : aget l a = some b) : (a, b) ∈ l := by
  induction l with
  | nil => simp [aget] at h
  | cons hd tl ih =>
    obtain ⟨k, v⟩ := hd
    by_cases hk : k = a
    · subst hk
      simp [aget] at h
      subst h
      exact List.mem_cons_self _ _
    · simp [aget, hk] at h
      exact List.mem_cons_of_mem _ (ih h)

theorem aget_eq_none {α β : Type} [DecidableEq α] {l : List (α × β)} {a : α} :
    aget l a = none ↔ ∀ p ∈ l, p.1 ≠ a := by
  induction l with
  | nil => simp [aget]
  | cons hd tl ih =>
    obtain ⟨k, v⟩ := hd
    by_cases hk : k = a
    · subst hk
      simp [aget]
    · simp [aget, hk, ih]

theorem aget_aset_self {α β : Type} [DecidableEq α] (l : List (α × β)) (a : α) (b : β) :
    aget (aset l a b) a = some b := by
  induction l with
  | nil => simp [aset, aget]
  | cons hd tl ih =>
    obtain ⟨k, v⟩ := hd
    by_cases hk : k = a
    · subst hk
      simp [aset, aget]
    · simp [aset, aget, hk, ih]

theorem aget_aset_ne {α β : Type} [DecidableEq α] (l : List (α × β)) (a : α) (b : β)
    {c : α} (h : c ≠ a) : aget (aset l a b) c = aget l c := by
  have h' : ¬ a = c := fun he => h he.symm
  induction l with
  | nil => simp [aset, aget, h']
  | cons hd tl ih =>
    obtain ⟨k, v⟩ := hd
    by_cases hk : k = a
    · subst hk
      simp [aset, aget, h']
    · simp [aset, aget, hk, ih]

theorem mem_aset_self {α β : Type} [DecidableEq α] (l : List (α × β)) (a : α) (b : β) :
    (a, b) ∈ aset l a b := by
  induction l with
  | nil => simp [aset]
  | cons hd tl ih =>
    obtain ⟨k, v⟩ := hd
    by_cases hk : k = a
    · subst hk
      simp [aset]
    · simp only [aset, if_neg hk]
      exact List.mem_cons_of_mem _ ih

theorem mem_aset_of_ne {α β : Type} [DecidableEq α] {l : List (α × β)} {a : α} {b : β}
    {p : α × β} (hp : p ∈ l) (h : p.1 ≠ a) : p ∈ aset l a b := by
  induction l with
  | nil => simp at hp
  | cons hd tl ih =>
    obtain ⟨k, v⟩ := hd
    rcases List.mem_cons.mp hp with he | ht
    · subst he
      by_cases hk : k = a
      · exact absurd hk h
      · simp only [aset, if_neg hk]
        exact List.mem_cons_self _ _
    · by_cases hk : k = a
      · subst hk
        simp only [aset, if_pos rfl]
        exact List.mem_cons_of_mem _ ht
      · simp only [aset, if_neg hk]
        exact List.mem_cons_of_mem _ (ih ht)

theorem mem_aset_elim {α β : Type} [DecidableEq α] {l : List (α × β)} {a : α} {b : β}
    {p : α × β} (hnd : (l.map Prod.fst).Nodup) (hp : p ∈ aset l a b) :
    p = (a, b) ∨ (p ∈ l ∧ p.1 ≠ a) := by
  induction l with
  | nil =>
    simp [aset] at hp
    exact Or.inl hp
  | cons hd tl ih =>
    obtain ⟨k, v⟩ := hd
    simp only [List.map_cons, List.nodup_cons] at hnd
    by_cases hk : k = a
    · subst hk
      simp only [aset, if_pos rfl] at hp
      rcases List.mem_cons.mp hp with he | ht
      · exact Or.inl he
      · refine Or.inr ⟨List.mem_cons_of_mem _ ht, ?_⟩
        intro hpa
        exact hnd.1 (hpa ▸ List.mem_map_of_mem Prod.fst ht)
    · simp only [aset, if_neg hk] at hp
      rcases List.mem_cons.mp hp with he | ht
      · subst he
        exact Or.inr ⟨List.mem_cons_self _ _, hk⟩
      · rcases ih hnd.2 ht with h1 | h2
        · exact Or.inl h1
        · exact Or.inr ⟨List.mem_cons_of_mem _ h2.1, h2.2⟩

theorem keys_aset_some {α β : Type} [DecidableEq α] {l : List (α × β)} {a : α} {v : β}
    (b : β) (hg : aget l a = some v) :
    (aset l a b).map Prod.fst = l.map Prod.fst := by
  induction l with
  | nil => simp [aget] at hg
  | cons hd tl ih =>
    obtain ⟨k, w⟩ := hd
    by_cases hk : k = a
    · subst hk
      simp [aset]
    · simp only [aget, if_neg hk] at hg
      simp [aset, if_neg hk, ih hg]

theorem keys_aset_none {α β : Type} [DecidableEq α] {l : List (α × β)} {a : α}
    (b : β) (hg : aget l a = none) :
    (aset l a b).map Prod.fst = l.map Prod.fst ++ [a] := by
  induction l with
  | nil => simp [aset]
  | cons hd tl ih =>
    obtain ⟨k, w⟩ := hd
    by_cases hk : k = a
    · subst hk
      simp [aget] at hg
    · simp only [aget, if_neg hk] at hg
      simp [aset, if_neg hk, ih hg]

theorem nodup_keys_aset {α β : Type} [DecidableEq α] {l : List (α × β)} {a : α} (b : β)
    (hnd : (l.map Prod.fst).Nodup) : ((aset l a b).map Prod.fst).Nodup := by
  cases hg : aget l a with
  | some v => rw [keys_aset_some b hg]; exact hnd
  | none =>
    rw [keys_aset_none b hg]
    rw [List.nodup_append]
    refine ⟨hnd, List.nodup_singleton _, ?_⟩
    intro x hx hx'
    simp only [List.mem_singleton] at hx'
    subst hx'
    obtain ⟨p, hp, hpe⟩ := List.mem_map.mp hx
    exact (aget_eq_none.mp hg p hp) hpe

theorem mem_adel {α β : Type} [DecidableEq α] {l : List (α × β)} {a : α} {p : α × β} :
    p ∈ adel l a ↔ p ∈ l ∧ p.1 ≠ a := by
  simp [adel, List.mem_filter]

theorem aget_adel_self {α β : Type} [DecidableEq α] (l : List (α × β)) (a : α) :
    aget (adel l a) a = none := by
  rw [aget_eq_none]
  intro p hp
  exact (mem_adel.mp hp).2

theorem nodup_keys_adel {α β : Type} [DecidableEq α] {l : List (α × β)} (a : α)
    (hnd : (l.map Prod.fst).Nodup) : ((adel l a).map Prod.fst).Nodup :=
  ((List.filter_sublist l).map Prod.fst).nodup hnd

theorem aget_append_of_some {α β : Type} [DecidableEq α] {l : List (α × β)} {a : α} {v : β}
    (l2 : List (α × β)) (h : aget l a = some v) : aget (l ++ l2) a = some v := by
  induction l with
  | nil => simp [aget] at h
  | cons hd tl ih =>
    obtain ⟨k, w⟩ := hd
    by_cases hk : k = a
    · subst hk
      simp [aget] at h ⊢
      exact h
    · simp only [aget, if_neg hk] at h ⊢
      exact ih h

theorem aget_append_of_none {α β : Type} [DecidableEq α] {l : List (α × β)} {a : α}
    (l2 : List (α × β)) (h : aget l a = none) : aget (l ++ l2) a = aget l2 a := by
  induction l with
  | nil => simp
  | cons hd tl ih =>
    obtain ⟨k, w⟩ := hd
    by_cases hk : k = a
    · subst hk
      simp [aget] at h
    · simp only [List.cons_append, aget, if_neg hk] at h ⊢
      exact ih h

theorem mem_ioTo {s : ServerState} {code : String} {ev : OutEvent} {i : Nat} {cn : Conn}
    (h1 : (i, cn) ∈ s.conns) (h2 : cn.connected = true) (h3 : code ∈ cn.sioRooms) :
    (i, ev) ∈ ioTo s code ev := by
  refine List.mem_map.mpr ⟨(i, cn), List.mem_filter.mpr ⟨h1, ?_⟩, rfl⟩
  simp [h2, h3]

theorem mem_socketTo {s : ServerState} {code : String} {sender : Nat} {ev : OutEvent}
    {i : Nat} {cn : Conn} (h0 : i ≠ sender) (h1 : (i, cn) ∈ s.conns)
    (h2 : cn.connected = true) (h3 : code ∈ cn.sioRooms) :
    (i, ev) ∈ socketTo s code sender ev := by
  refine List.mem_map.mpr ⟨(i, cn), List.mem_filter.mpr ⟨h1, ?_⟩, rfl⟩
  simp [h0, h2, h3]

theorem eq_of_mem_ioTo {s : ServerState} {code : String} {ev : OutEvent}
    {e : Nat × OutEvent} (h : e ∈ ioTo s code ev) : e.2 = ev := by
  obtain ⟨p, _, he⟩ := List.mem_map.mp h
  rw [← he]

theorem eq_of_mem_socketTo {s : ServerState} {code : String} {sender : Nat} {ev : OutEvent}
    {e : Nat × OutEvent} (h : e ∈ socketTo s code sender ev) : e.2 = ev := by
  obtain ⟨p, _, he⟩ := List.mem_map.mp h
  rw [← he]

theorem aget_aset_isSome {conns : List (Nat × Conn)} {x : Nat} (sid : Nat) (cn' : Conn)
    (hold : ∃ c0, aget conns x = some c0) :
    ∃ c0, aget (aset conns sid cn') x = some c0 := by
  by_cases hx : x = sid
  · subst hx
    exact ⟨cn', aget_aset_self _ _ _⟩
  · obtain ⟨c0, hc0⟩ := hold
    refine ⟨c0, ?_⟩
    rw [aget_aset_ne _ _ _ hx]
    exact hc0

theorem ConnOK_aset_disc {conns : List (Nat × Conn)} (sid : Nat) {cn' : Conn}
    (hnd : (conns.map Prod.fst).Nodup) (hdisc : cn'.connected = false)
    {code : String} {m : Member} (hold : ConnOK conns code m) :
    ConnOK (aset conns sid cn') code m := by
  intro q hq hq1 hq2
  rcases mem_aset_elim hnd hq with heq | ⟨hqin, _⟩
  · subst heq
    have ht : cn'.connected = true := hq2
    rw [ht] at hdisc
    exact absurd hdisc (by decide)
  · exact hold q hqin hq1 hq2

theorem Inv_connectH {s : ServerState} (sid : Nat) (h : Inv s) : Inv (connectH s sid) := by
  obtain ⟨h1, h2, h3, h4, h5⟩ := h
  cases hg : aget s.conns sid with
  | some cn => simpa only [connectH, hg] using ⟨h1, h2, h3, h4, h5⟩
  | none =>
    simp only [connectH, hg]
    refine ⟨h1, h2, ?_, ?_, ?_⟩
    · rw [List.map_append]
      rw [List.nodup_append]
      refine ⟨h3, by simp, ?_⟩
      intro x hx hx'
      simp only [List.map_cons, List.map_nil, List.mem_singleton] at hx'
      subst hx'
      obtain ⟨p, hp, hpe⟩ := List.mem_map.mp hx
      exact (aget_eq_none.mp hg p hp) hpe
    · intro r hr m hm
      obtain ⟨c0, hc0⟩ := h4 r hr m hm
      exact ⟨c0, aget_append_of_some _ hc0⟩
    · intro r hr m hm q hq hq1 hq2
      rcases List.mem_append.mp hq with hqin | hqnew
      · exact h5 r hr m hm q hqin hq1 hq2
      · simp only [List.mem_singleton] at hqnew
        subst hqnew
        obtain ⟨c0, hc0⟩ := h4 r hr m hm
        rw [← hq1] at hc0
        rw [hg] at hc0
        cases hc0

theorem Inv_createRoomH {s : ServerState} (sid : Nat) (code : String) (p : CreatePayload)
    (h : Inv s) : Inv (createRoomH s sid code p).1 := by
  obtain ⟨h1, h2, h3, h4, h5⟩ := h
  cases hg : aget s.conns sid with
  | none => simpa only [createRoomH, hg] using ⟨h1, h2, h3, h4, h5⟩
  | some cn =>
    simp only [createRoomH, hg]
    refine ⟨?_, ?_, ?_, ?_, ?_⟩
    · intro r hr
      rcases mem_aset_elim h2 hr with he | ⟨hin, _⟩
      · subst he
        simp
      · exact h1 r hin
    · exact nodup_keys_aset _ h2
    · exact nodup_keys_aset _ h3
    · intro r hr m hm
      by_cases hmsid : m.id = sid
      · rw [hmsid]
        exact ⟨_, aget_aset_self s.conns sid _⟩
      · rcases mem_aset_elim h2 hr with he | ⟨hin, _⟩
        · subst he
          simp only [List.mem_singleton] at hm
          rw [hm] at hmsid
          exact absurd rfl hmsid
        · obtain ⟨c0, hc0⟩ := h4 r hin m hm
          refine ⟨c0, ?_⟩
          rw [aget_aset_ne _ _ _ hmsid]
          exact hc0
    · intro r hr m hm q hq hq1 hq2
      rcases mem_aset_elim h3 hq with heq | ⟨hqin, hqne⟩
      · subst heq
        rcases mem_aset_elim h2 hr with he | ⟨hin, _⟩
        · subst he
          simp
        · have hcc : cn.connected = true := hq2
          have hold := h5 r hin m hm (sid, cn) (aget_mem hg) hq1 hcc
          exact List.mem_cons_of_mem _ hold
      · rcases mem_aset_elim h2 hr with he | ⟨hin, _⟩
        · subst he
          simp only [List.mem_singleton] at hm
          rw [hm] at hq1
          exact absurd hq1 hqne
        · exact h5 r hin m hm q hqin hq1 hq2

theorem Inv_joinRoomH {s : ServerState} (sid : Nat) (p : JoinPayload)
    (h : Inv s) : Inv (resultOrFrozen s (joinRoomH s sid p)).1 := by
  obtain ⟨h1, h2, h3, h4, h5⟩ := h
  cases hpc : p.roomCode with
  | none => simpa only [joinRoomH, hpc, resultOrFrozen] using ⟨h1, h2, h3, h4, h5⟩
  | some code =>
    cases hmsr : aget s.rooms code with
    | none =>
      by_cases hpp : code ∈ protoProps
      · simp only [joinRoomH, hpc, hmsr]
        rw [if_pos hpp]
        simpa only [resultOrFrozen] using ⟨h1, h2, h3, h4, h5⟩
      · simp only [joinRoomH, hpc, hmsr]
        rw [if_neg hpp]
        simpa only [resultOrFrozen] using ⟨h1, h2, h3, h4, h5⟩
    | some ms =>
      cases hg : aget s.conns sid with
      | none =>
        simpa only [joinRoomH, hpc, hmsr, hg, resultOrFrozen] using ⟨h1, h2, h3, h4, h5⟩
      | some cn =>
        simp only [joinRoomH, hpc, hmsr, hg, resultOrFrozen]
        refine ⟨?_, ?_, ?_, ?_, ?_⟩
        · intro r hr
          rcases mem_aset_elim h2 hr with he | ⟨hin, _⟩
          · subst he
            simp
          · exact h1 r hin
        · exact nodup_keys_aset _ h2
        · exact nodup_keys_aset _ h3
        · intro r hr m hm
          by_cases hmsid : m.id = sid
          · rw [hmsid]
            exact ⟨_, aget_aset_self s.conns sid _⟩
          · rcases mem_aset_elim h2 hr with he | ⟨hin, _⟩
            · subst he
              rcases List.mem_append.mp hm with hmold | hmnew
              · obtain ⟨c0, hc0⟩ := h4 (code, ms) (aget_mem hmsr) m hmold
                refine ⟨c0, ?_⟩
                rw [aget_aset_ne _ _ _ hmsid]
                exact hc0
              · simp only [List.mem_singleton] at hmnew
                rw [hmnew] at hmsid
                exact absurd rfl hmsid
            · obtain ⟨c0, hc0⟩ := h4 r hin m hm
              refine ⟨c0, ?_⟩
              rw [aget_aset_ne _ _ _ hmsid]
              exact hc0
        · intro r hr m hm q hq hq1 hq2
          rcases mem_aset_elim h3 hq with heq | ⟨hqin, hqne⟩
          · subst heq
            rcases mem_aset_elim h2 hr with he | ⟨hin, _⟩
            · subst he
              simp
            · have hcc : cn.connected = true := hq2
              have hold := h5 r hin m hm (sid, cn) (aget_mem hg) hq1 hcc
              exact List.mem_cons_of_mem _ hold
          · rcases mem_aset_elim h2 hr with he | ⟨hin, _⟩
            · subst he
              rcases List.mem_append.mp hm with hmold | hmnew
              · exact h5 (code, ms) (aget_mem hmsr) m hmold q hqin hq1 hq2
              · simp only [List.mem_singleton] at hmnew
                rw [hmnew] at hq1
                exact absurd hq1 hqne
            · exact h5 r hin m hm q hqin hq1 hq2

theorem conns_disc_facts (s : ServerState) (sid : Nat) (cn' : Conn)
    (hdisc : cn'.connected = false) (h : Inv s) :
    ((aset s.conns sid cn').map Prod.fst).Nodup ∧
    (∀ r ∈ s.rooms, ∀ m ∈ r.2, ∃ c0, aget (aset s.conns sid cn') m.id = some c0) ∧
    (∀ r ∈ s.rooms, ∀ m ∈ r.2, ConnOK (aset s.conns sid cn') r.1 m) := by
  obtain ⟨h1, h2, h3, h4, h5⟩ := h
  refine ⟨nodup_keys_aset _ h3, ?_, ?_⟩
  · intro r hr m hm
    exact aget_aset_isSome sid _ (h4 r hr m hm)
  · intro r hr m hm
    exact ConnOK_aset_disc sid h3 hdisc (h5 r hr m hm)

theorem Inv_disconnectH {s : ServerState} (sid : Nat) (h : Inv s) :
    Inv (disconnectH s sid).1 := by
  obtain ⟨h1, h2, h3, h4, h5⟩ := h
  cases hg : aget s.conns sid with
  | none => simpa only [disconnectH, hg] using ⟨h1, h2, h3, h4, h5⟩
  | some cn =>
    cases hrc : cn.roomCode with
    | none =>
      simp only [disconnectH, hg, hrc]
      obtain ⟨hA, hB, hC⟩ :=
        conns_disc_facts s sid ⟨false, none, cn.username, []⟩ rfl ⟨h1, h2, h3, h4, h5⟩
      exact ⟨h1, h2, hA, hB, hC⟩
    | some code =>
      obtain ⟨hA, hB, hC⟩ :=
        conns_disc_facts s sid ⟨false, some code, cn.username, []⟩ rfl ⟨h1, h2, h3, h4, h5⟩
      by_cases hce : code = ""
      · simp only [disconnectH, hg, hrc, if_pos hce]
        exact ⟨h1, h2, hA, hB, hC⟩
      · cases hmsr : aget s.rooms code with
        | none =>
          simp only [disconnectH, hg, hrc, if_neg hce, hmsr]
          exact ⟨h1, h2, hA, hB, hC⟩
        | some ms =>
          simp only [disconnectH, hg, hrc, if_neg hce, hmsr]
          by_cases hne : (ms.filter (fun m => decide (m.id ≠ sid))).isEmpty = true
          · rw [if_pos hne]
            refine ⟨?_, ?_, hA, ?_, ?_⟩
            · intro r hr
              obtain ⟨hr1, hr2⟩ := mem_adel.mp hr
              rcases mem_aset_elim h2 hr1 with he | ⟨hin, _⟩
              · rw [he] at hr2
                exact absurd rfl hr2
              · exact h1 r hin
            · exact nodup_keys_adel _ (nodup_keys_aset _ h2)
            · intro r hr m hm
              obtain ⟨hr1, hr2⟩ := mem_adel.mp hr
              rcases mem_aset_elim h2 hr1 with he | ⟨hin, _⟩
              · rw [he] at hr2
                exact absurd rfl hr2
              · exact hB r hin m hm
            · intro r hr
              obtain ⟨hr1, hr2⟩ := mem_adel.mp hr
              rcases mem_aset_elim h2 hr1 with he | ⟨hin, _⟩
              · rw [he] at hr2
                exact absurd rfl hr2
              · exact hC r hin
          · rw [if_neg hne]
            refine ⟨?_, nodup_keys_aset _ h2, hA, ?_, ?_⟩
            · intro r hr
              rcases mem_aset_elim h2 hr with he | ⟨hin, _⟩
              · subst he
                intro hnil
                have hnil' : ms.filter (fun m => decide (m.id ≠ sid)) = [] := hnil
                rw [hnil'] at hne
                exact hne rfl
              · exact h1 r hin
            · intro r hr m hm
              rcases mem_aset_elim h2 hr with he | ⟨hin, _⟩
              · subst he
                have hm' : m ∈ ms := List.mem_of_mem_filter hm
                exact hB (code, ms) (aget_mem hmsr) m hm'
              · exact hB r hin m hm
            · intro r hr m hm
              rcases mem_aset_elim h2 hr with he | ⟨hin, _⟩
              · subst he
                have hm' : m ∈ ms := List.mem_of_mem_filter hm
                exact hC (code, ms) (aget_mem hmsr) m hm'
              · exact hC r hin m hm

theorem Inv_init : Inv initState := by
  refine ⟨?_, ?_, ?_, ?_, ?_⟩ <;> simp [initState, Inv]

theorem Inv_step (s : ServerState) (op : Op) (h : Inv s) : Inv (step s op) := by
  cases op with
  | connect sid => exact Inv_connectH sid h
  | createRoom sid code p =>
    by_cases hc : isConnected s sid = true
    · simp only [step, if_pos hc]
      exact Inv_createRoomH sid code p h
    · simp only [step, if_neg hc]
      exact h
  | joinRoom sid p =>
    by_cases hc : isConnected s sid = true
    · simp only [step, if_pos hc]
      exact Inv_joinRoomH sid p h
    · simp only [step, if_neg hc]
      exact h
  | disconnect sid =>
    by_cases hc : isConnected s sid = true
    · simp only [step, if_pos hc]
      exact Inv_disconnectH sid h
    · simp only [step, if_neg hc]
      exact h

theorem Inv_foldl (ops : List Op) : ∀ s, Inv s → Inv (ops.foldl step s) := by
  induction ops with
  | nil => intro s h; exact h
  | cons op rest ih =>
    intro s h
    exact ih _ (Inv_step s op h)

theorem Inv_run (ops : List Op) : Inv (run ops) := Inv_foldl ops initState Inv_init

theorem unicastOpt_all {s : ServerState} {t? : Option Nat} {ev : OutEvent}
    (f : Nat × OutEvent → Bool) (h : ∀ i, f (i, ev) = true) :
    (unicastOpt s t? ev).all f = true := by
  cases t? with
  | none => rfl
  | some t =>
    simp only [unicastOpt]
    cases aget s.conns t with
    | none => rfl
    | some cn =>
      show (if cn.connected = true then [(t, ev)] else []).all f = true
      by_cases hc : cn.connected = true
      · rw [if_pos hc]
        simp [h]
      · rw [if_neg hc]
        rfl

theorem ioTo_all {s : ServerState} {code : String} {ev : OutEvent}
    (f : Nat × OutEvent → Bool) (h : ∀ i, f (i, ev) = true) :
    (ioTo s code ev).all f = true := by
  rw [List.all_eq_true]
  intro e he
  obtain ⟨p, _, hpe⟩ := List.mem_map.mp he
  rw [← hpe]
  exact h p.1

theorem deliveredOnlyTo_unicastOpt (s : ServerState) (t? : Option Nat)
    (isK : OutEvent → Bool) (ev : OutEvent) :
    deliveredOnlyTo t? isK (unicastOpt s t? ev) = true := by
  cases t? with
  | none => rfl
  | some t =>
    simp only [unicastOpt, deliveredOnlyTo]
    cases aget s.conns t with
    | none => rfl
    | some cn =>
      show ((if cn.connected = true then [(t, ev)] else []).all
        (fun e => !isK e.2 || decide (some e.1 = some t))) = true
      by_cases hc : cn.connected = true
      · rw [if_pos hc]
        simp
      · rw [if_neg hc]
        rfl

theorem sharerNotify_all (s : ServerState) (sid : Nat) (fid : Option Nat)
    (f : Nat × OutEvent → Bool) (h : ∀ i, f (i, OutEvent.sharerStarted fid) = true) :
    (sharerNotify s sid fid).all f = true := by
  simp only [sharerNotify]
  cases sessRoomCode s sid with
  | none => rfl
  | some code =>
    show ((if code = "" then [] else ioTo s code (OutEvent.sharerStarted fid)).all f) = true
    by_cases hce : code = ""
    · rw [if_pos hce]
      rfl
    · rw [if_neg hce]
      exact ioTo_all f h

theorem no_sid_any_false {ms : List Member} {sid : Nat}
    (h : ∀ m ∈ ms, m.id ≠ sid) : (ms.any (fun m => decide (m.id = sid))) = false := by
  rw [List.any_eq_false]
  intro m hm
  simp [h m hm]

theorem filter_sid_aset_le_one {l : List (String × List Member)} {sid : Nat}
    (hnone : ∀ r ∈ l, ∀ m ∈ r.2, m.id ≠ sid) (code : String) (ms : List Member) :
    ((aset l code ms).filter (fun r => r.2.any (fun m => decide (m.id = sid)))).length ≤ 1 := by
  induction l with
  | nil =>
    calc ((aset ([] : List (String × List Member)) code ms).filter
            (fun r => r.2.any (fun m => decide (m.id = sid)))).length
        ≤ (aset ([] : List (String × List Member)) code ms).length :=
          List.length_filter_le _ _
      _ = 1 := by simp [aset]
  | cons hd tl ih =>
    obtain ⟨k, v⟩ := hd
    have hv : ∀ m ∈ v, m.id ≠ sid := hnone (k, v) (List.mem_cons_self _ _)
    have htl : ∀ r ∈ tl, ∀ m ∈ r.2, m.id ≠ sid :=
      fun r hr => hnone r (List.mem_cons_of_mem _ hr)
    by_cases hk : k = code
    · subst hk
      simp only [aset, eq_self_iff_true, if_true]
      have htlnil : tl.filter (fun r => r.2.any (fun m => decide (m.id = sid))) = [] := by
        rw [List.filter_eq_nil_iff]
        intro r hr
        simp [no_sid_any_false (htl r hr)]
      rw [List.filter_cons, htlnil]
      by_cases hp : ((k, ms).2.any (fun m => decide (m.id = sid))) = true
      · rw [if_pos hp]
        simp
      · rw [if_neg hp]
        simp
    · simp only [aset, if_neg hk]
      have hhd : ((k, v).2.any (fun m => decide (m.id = sid))) = false := no_sid_any_false hv
      rw [List.filter_cons, if_neg (by simp [hhd])]
      exact ih htl

theorem filter_sid_nil {l : List (String × List Member)} {sid : Nat}
    (hnone : ∀ r ∈ l, ∀ m ∈ r.2, m.id ≠ sid) :
    (l.filter (fun r => r.2.any (fun m => decide (m.id = sid)))) = [] := by
  rw [List.filter_eq_nil_iff]
  intro r hr
  simp [no_sid_any_false (hnone r hr)]

/-- Claim C1: after every sequence of create-room, join-room and
    disconnect operations from server start, every room present in the
    rooms store has a nonempty member array: the disconnect handler
    deletes a room the moment its last member entry departs, and no
    handler ever stores an empty member array. -/
theorem C1_every_room_nonempty (ops : List Op) :
    ((run ops).rooms.all (fun r => !r.2.isEmpty)) = true := by
  have h1 := (Inv_run ops).1
  rw [List.all_eq_true]
  intro r hr
  have hne := h1 r hr
  cases hcase : r.2 with
  | nil => exact absurd hcase hne
  | cons a l => simp [hcase]

/-- Claim C2 counterexample: connected socket 1 sends webrtc-offer with a
    forged fromId of 999 addressed to socket 2; socket 2 receives the
    offer carrying fromId 999 rather than the sender id 1, so the
    delivered sender identity is client-controlled for webrtc-offer. -/
theorem C2_counterexample :
    (webrtcOfferH (run [Op.connect 1, Op.connect 2]) 1
        ⟨some "sdp", some 2, some 999⟩).2
      = [(2, OutEvent.webrtcOffer (some "sdp") (some 999))] ∧ (999 : Nat) ≠ 1 := by
  decide

/-- Claim C2 (amended): for request-share, reject-share, request-control,
    accept-control, reject-control, webrtc-answer and webrtc-candidate,
    every identity field delivered equals the socket id of the actual
    sending connection regardless of the payload (reject-control carries
    no identity field at all, only a username); webrtc-offer instead
    relays the client-supplied fromId, as the counterexample shows. -/
theorem C2_identity_injected (s : ServerState) (sid : Nat) (tp : TargetPayload)
    (rp : RequesterPayload) (ap : AnswerPayload) (cp : CandidatePayload) :
    ((requestShareH s sid tp).2.all (identityOk sid) = true) ∧
    ((rejectShareH s sid rp).2.all (identityOk sid) = true) ∧
    ((requestControlH s sid tp).2.all (identityOk sid) = true) ∧
    ((acceptControlH s sid rp).2.all (identityOk sid) = true) ∧
    ((rejectControlH s sid rp).2.all (identityOk sid) = true) ∧
    ((webrtcAnswerH s sid ap).2.all (identityOk sid) = true) ∧
    ((webrtcCandidateH s sid cp).2.all (identityOk sid) = true) := by
  refine ⟨?_, ?_, ?_, ?_, ?_, ?_, ?_⟩ <;>
    exact unicastOpt_all _ (fun i => by simp [identityOk, idField])

/-- Claim C3 evaluation: the room code toString names no room in the
    store, yet because it is an inherited Object.prototype property the
    truthiness test rooms[roomCode] passes and join-room throws an
    uncaught TypeError at the push call (modelled none): the process
    crashes and no join-error is delivered, falsifying the claim for
    such codes; a plain unknown code like ZZZZZZ instead yields exactly
    one join-error to the sender with the state unchanged, as the claim
    describes. -/
theorem C3_proto_code_crashes :
    aget (run [Op.connect 7]).rooms "toString" = none ∧
    joinRoomH (run [Op.connect 7]) 7 ⟨some "toString", some "zoe"⟩ = none ∧
    joinRoomH (run [Op.connect 7]) 7 ⟨some "ZZZZZZ", some "zoe"⟩
      = some (run [Op.connect 7], [(7, OutEvent.joinError "Invalid room code.")]) := by
  decide

/-- Claim C4 counterexample: room AAAAAA exists holding member 1; socket
    2 issues create-room and the generated code collides with AAAAAA; the
    handler overwrites the member array with a singleton for socket 2,
    destroying the existing room, instead of regenerating the code. -/
theorem C4_counterexample :
    aget (run [Op.connect 1, Op.createRoom 1 "AAAAAA" ⟨some "ann"⟩,
        Op.connect 2]).rooms "AAAAAA" = some [⟨1, some "ann"⟩] ∧
    aget (createRoomH (run [Op.connect 1, Op.createRoom 1 "AAAAAA" ⟨some "ann"⟩,
        Op.connect 2]) 2 "AAAAAA" ⟨some "bob"⟩).1.rooms "AAAAAA"
      = some [⟨2, some "bob"⟩] := by
  decide

/-- Claim C4 (amended): create-room installs the generated code with no
    collision check: when the generated code is fresh it creates a new
    singleton room and leaves every other room untouched, so codes remain
    unique as store keys; when the generated code collides, the existing
    room is overwritten rather than a new code being generated, as the
    counterexample shows. -/
theorem C4_fresh_code_creates (s : ServerState) (sid : Nat) (code : String)
    (p : CreatePayload) (cn : Conn) (hg : aget s.conns sid = some cn)
    (hfresh : aget s.rooms code = none) :
    aget (createRoomH s sid code p).1.rooms code = some [⟨sid, p.username⟩] ∧
    ∀ c, c ≠ code → aget (createRoomH s sid code p).1.rooms c = aget s.rooms c := by
  simp only [createRoomH, hg]
  constructor
  · exact aget_aset_self _ _ _
  · intro c hc
    exact aget_aset_ne _ _ _ hc

/-- Witness for C4 at a fresh code on a reachable state. -/
theorem C4_witness :
    aget (createRoomH (run [Op.connect 3]) 3 "FRESH1" ⟨some "kay"⟩).1.rooms "FRESH1"
      = some [⟨3, some "kay"⟩] :=
  (C4_fresh_code_creates (run [Op.connect 3]) 3 "FRESH1" ⟨some "kay"⟩
    ⟨true, none, none, []⟩ (by decide) (by decide)).1

/-- Claim C5 counterexample: socket 1 creates room AAAAAA, socket 2
    creates room BBBBBB, then socket 1 joins BBBBBB while still listed in
    AAAAAA; afterwards socket 1 appears in the member arrays of both
    rooms at once. -/
theorem C5_counterexample :
    roomsListing (run [Op.connect 1, Op.connect 2,
      Op.createRoom 1 "AAAAAA" ⟨some "ann"⟩,
      Op.createRoom 2 "BBBBBB" ⟨some "bob"⟩,
      Op.joinRoom 1 ⟨some "BBBBBB", some "ann"⟩]) 1 = ["AAAAAA", "BBBBBB"] := by
  decide

/-- Claim C5 (amended): neither create-room nor join-room removes a stale
    membership, so a socket already listed in a room that creates or
    joins another room stays listed in both, as the counterexample shows;
    at-most-one-room membership does hold after a single create-room or
    join-room by a socket not currently listed in any room. -/
theorem C5_single_op_at_most_one_room (s : ServerState) (sid : Nat) (code : String)
    (p : CreatePayload) (jp : JoinPayload)
    (hnone : ∀ r ∈ s.rooms, ∀ m ∈ r.2, m.id ≠ sid) :
    (roomsListing (createRoomH s sid code p).1 sid).length ≤ 1 ∧
    (roomsListing (resultOrFrozen s (joinRoomH s sid jp)).1 sid).length ≤ 1 := by
  constructor
  · cases hg : aget s.conns sid with
    | none =>
      simp only [createRoomH, hg, roomsListing]
      rw [filter_sid_nil hnone]
      simp
    | some cn =>
      simp only [createRoomH, hg, roomsListing]
      rw [List.length_map]
      exact filter_sid_aset_le_one hnone code _
  · cases hpc : jp.roomCode with
    | none =>
      simp only [joinRoomH, hpc, resultOrFrozen, roomsListing]
      rw [filter_sid_nil hnone]
      simp
    | some c =>
      cases hms : aget s.rooms c with
      | none =>
        by_cases hpp : c ∈ protoProps
        · simp only [joinRoomH, hpc, hms]
          rw [if_pos hpp]
          simp only [resultOrFrozen, roomsListing]
          rw [filter_sid_nil hnone]
          simp
        · simp only [joinRoomH, hpc, hms]
          rw [if_neg hpp]
          simp only [resultOrFrozen, roomsListing]
          rw [filter_sid_nil hnone]
          simp
      | some ms =>
        cases hg : aget s.conns sid with
        | none =>
          simp only [joinRoomH, hpc, hms, hg, resultOrFrozen, roomsListing]
          rw [filter_sid_nil hnone]
          simp
        | some cn =>
          simp only [joinRoomH, hpc, hms, hg, resultOrFrozen, roomsListing]
          rw [List.length_map]
          exact filter_sid_aset_le_one hnone c _

/-- Witness for C5 on a socket listed nowhere creating one room. -/
theorem C5_witness :
    (roomsListing (createRoomH (run [Op.connect 4]) 4 "CODE01" ⟨some "pat"⟩).1 4).length ≤ 1 :=
  (C5_single_op_at_most_one_room (run [Op.connect 4]) 4 "CODE01" ⟨some "pat"⟩
    ⟨some "CODE01", some "pat"⟩ (by decide)).1

/-- Claim C8: for every handler that unicasts to a payload-named target
    (share request and reject, control request, accept and reject, and
    the three webrtc signals), every delivery of the unicast event kind
    goes to that target connection and to nobody else; the sharer-started
    side broadcast of webrtc-offer is a different event kind. -/
theorem C8_unicast_only_target (s : ServerState) (sid : Nat) (tp : TargetPayload)
    (rp : RequesterPayload) (ofp : OfferPayload) (ap : AnswerPayload)
    (cp : CandidatePayload) :
    (deliveredOnlyTo tp.targetId isShareReqEv (requestShareH s sid tp).2 = true) ∧
    (deliveredOnlyTo rp.requesterId isShareRejEv (rejectShareH s sid rp).2 = true) ∧
    (deliveredOnlyTo tp.targetId isCtrlReqEv (requestControlH s sid tp).2 = true) ∧
    (deliveredOnlyTo rp.requesterId isCtrlAccEv (acceptControlH s sid rp).2 = true) ∧
    (deliveredOnlyTo rp.requesterId isCtrlRejEv (rejectControlH s sid rp).2 = true) ∧
    (deliveredOnlyTo ofp.toId isOfferEv (webrtcOfferH s sid ofp).2 = true) ∧
    (deliveredOnlyTo ap.toId isAnswerEv (webrtcAnswerH s sid ap).2 = true) ∧
    (deliveredOnlyTo cp.toId isCandidateEv (webrtcCandidateH s sid cp).2 = true) := by
  refine ⟨deliveredOnlyTo_unicastOpt _ _ _ _, deliveredOnlyTo_unicastOpt _ _ _ _,
    deliveredOnlyTo_unicastOpt _ _ _ _, deliveredOnlyTo_unicastOpt _ _ _ _,
    deliveredOnlyTo_unicastOpt _ _ _ _, ?_,
    deliveredOnlyTo_unicastOpt _ _ _ _, deliveredOnlyTo_unicastOpt _ _ _ _⟩
  simp only [webrtcOfferH, deliveredOnlyTo, List.all_append, Bool.and_eq_true]
  constructor
  · exact sharerNotify_all s sid ofp.fromId _ (fun i => by simp [isOfferEv])
  · exact deliveredOnlyTo_unicastOpt s ofp.toId isOfferEv _

/-- Claim C9 evaluation: a create-room or join-room frame with no payload
    object at all makes the handler destructuring throw (modelled as
    none), an uncaught exception that takes the process down rather than
    being rejected; and a create-room whose payload object merely lacks
    the username field still creates a room, mutating the store instead
    of ignoring the event. -/
theorem C9_malformed_payload :
    onCreateRoom (run [Op.connect 1]) 1 "AB12cd" none = none ∧
    onJoinRoom (run [Op.connect 1]) 1 none = none ∧
    (createRoomH (run [Op.connect 1]) 1 "AB12cd" ⟨none⟩).1.rooms
      ≠ (run [Op.connect 1]).rooms := by
  decide

/-- Claim C10: a send-chat-message from a socket whose session lacks a
    room code or lacks a username is silently dropped: the state is
    unchanged and nothing is delivered to anybody. -/
theorem C10_chat_without_session (s : ServerState) (sid : Nat) (p : ChatPayload)
    (cn : Conn) (hg : aget s.conns sid = some cn)
    (h : cn.roomCode = none ∨ cn.username = none) :
    sendChatMessageH s sid p = (s, []) := by
  have hrc : sessRoomCode s sid = cn.roomCode := by simp [sessRoomCode, hg]
  have hun : sessUsername s sid = cn.username := by simp [sessUsername, hg]
  rcases h with h | h
  · simp only [sendChatMessageH, hrc, h]
  · cases hc : cn.roomCode with
    | none => simp only [sendChatMessageH, hrc, hc]
    | some code => simp only [sendChatMessageH, hrc, hc, hun, h]

/-- Witness for C10: a connected socket with empty session sends chat. -/
theorem C10_witness :
    sendChatMessageH (run [Op.connect 5]) 5 ⟨some "hi"⟩ = (run [Op.connect 5], []) :=
  C10_chat_without_session (run [Op.connect 5]) 5 ⟨some "hi"⟩
    ⟨true, none, none, []⟩ (by decide) (Or.inl rfl)

theorem isConnected_some {s : ServerState} {sid : Nat}
    (h : isConnected s sid = true) :
    ∃ cn, aget s.conns sid = some cn ∧ cn.connected = true := by
  unfold isConnected at h
  cases hg : aget s.conns sid with
  | none =>
    rw [hg] at h
    exact absurd h (by decide)
  | some cn =>
    rw [hg] at h
    exact ⟨cn, rfl, h⟩

theorem joinRoomH_success (s : ServerState) (sid : Nat) (code : String) (un : Option String)
    (ms : List Member) (hInv : Inv s)
    (hconn : isConnected s sid = true)
    (hms : aget s.rooms code = some ms) :
    (joinRoomH s sid ⟨some code, un⟩).isSome = true ∧
    aget (resultOrFrozen s (joinRoomH s sid ⟨some code, un⟩)).1.rooms code
        = some (ms ++ [⟨sid, un⟩]) ∧
    sessRoomCode (resultOrFrozen s (joinRoomH s sid ⟨some code, un⟩)).1 sid = some code ∧
    sessUsername (resultOrFrozen s (joinRoomH s sid ⟨some code, un⟩)).1 sid = un ∧
    (sid, OutEvent.joinedRoom code)
        ∈ (resultOrFrozen s (joinRoomH s sid ⟨some code, un⟩)).2 ∧
    (sid, OutEvent.updateUserList (ms ++ [⟨sid, un⟩]))
        ∈ (resultOrFrozen s (joinRoomH s sid ⟨some code, un⟩)).2 ∧
    (∀ m ∈ ms, isConnected s m.id = true → m.id ≠ sid →
      (m.id, OutEvent.userJoined ⟨sid, un⟩)
        ∈ (resultOrFrozen s (joinRoomH s sid ⟨some code, un⟩)).2) ∧
    (∀ m ∈ ms, isConnected s m.id = true →
      (m.id, OutEvent.updateUserList (ms ++ [⟨sid, un⟩]))
        ∈ (resultOrFrozen s (joinRoomH s sid ⟨some code, un⟩)).2) := by
  obtain ⟨h1, h2, h3, h4, h5⟩ := hInv
  obtain ⟨cn, hg, hcc⟩ := isConnected_some hconn
  simp only [joinRoomH, hms, hg, resultOrFrozen]
  refine ⟨rfl, ?_, ?_, ?_, ?_, ?_, ?_, ?_⟩
  · exact aget_aset_self _ _ _
  · simp [sessRoomCode, aget_aset_self]
  · simp [sessUsername, aget_aset_self]
  · exact List.mem_append.mpr (Or.inl (List.mem_append.mpr
      (Or.inr (List.mem_singleton.mpr rfl))))
  · refine List.mem_append.mpr (Or.inr ?_)
    exact mem_ioTo (mem_aset_self _ _ _) hcc (List.mem_cons_self _ _)
  · intro m hm hmc hmne
    obtain ⟨cnm, hgm, hccm⟩ := isConnected_some hmc
    have hcode : code ∈ cnm.sioRooms :=
      h5 (code, ms) (aget_mem hms) m hm (m.id, cnm) (aget_mem hgm) rfl hccm
    have hentry : (m.id, cnm) ∈ aset s.conns sid
        ⟨cn.connected, some code, un, code :: cn.sioRooms⟩ :=
      mem_aset_of_ne (aget_mem hgm) hmne
    exact List.mem_append.mpr (Or.inl (List.mem_append.mpr
      (Or.inl (mem_socketTo hmne hentry hccm hcode))))
  · intro m hm hmc
    by_cases hmsid : m.id = sid
    · rw [hmsid]
      refine List.mem_append.mpr (Or.inr ?_)
      exact mem_ioTo (mem_aset_self _ _ _) hcc (List.mem_cons_self _ _)
    · obtain ⟨cnm, hgm, hccm⟩ := isConnected_some hmc
      have hcode : code ∈ cnm.sioRooms :=
        h5 (code, ms) (aget_mem hms) m hm (m.id, cnm) (aget_mem hgm) rfl hccm
      have hentry : (m.id, cnm) ∈ aset s.conns sid
          ⟨cn.connected, some code, un, code :: cn.sioRooms⟩ :=
        mem_aset_of_ne (aget_mem hgm) hmsid
      exact List.mem_append.mpr (Or.inr (mem_ioTo hentry hccm hcode))

theorem disconnectH_spec (s : ServerState) (sid : Nat) (cn : Conn) (code : String)
    (ms : List Member) (hInv : Inv s)
    (hg : aget s.conns sid = some cn)
    (hrc : cn.roomCode = some code) (hne : code ≠ "")
    (hms : aget s.rooms code = some ms) :
    (ms.filter (fun m => decide (m.id ≠ sid)) = [] →
      aget (disconnectH s sid).1.rooms code = none ∧
      ∀ e ∈ (disconnectH s sid).2,
        (∀ us, e.2 ≠ OutEvent.updateUserList us) ∧ e.2 ≠ OutEvent.shareStopped) ∧
    (ms.filter (fun m => decide (m.id ≠ sid)) ≠ [] →
      aget (disconnectH s sid).1.rooms code
          = some (ms.filter (fun m => decide (m.id ≠ sid))) ∧
      ∀ m ∈ ms.filter (fun m => decide (m.id ≠ sid)), isConnected s m.id = true →
        (m.id, OutEvent.updateUserList (ms.filter (fun m => decide (m.id ≠ sid))))
            ∈ (disconnectH s sid).2 ∧
        (m.id, OutEvent.shareStopped) ∈ (disconnectH s sid).2) := by
  obtain ⟨h1, h2, h3, h4, h5⟩ := hInv
  simp only [disconnectH, hg, hrc, if_neg hne, hms]
  constructor
  · intro hnil
    have hisE : (ms.filter (fun m => decide (m.id ≠ sid))).isEmpty = true := by
      rw [hnil]
      rfl
    rw [if_pos hisE]
    refine ⟨aget_adel_self _ _, ?_⟩
    intro e he
    cases hfind : ms.find? (fun m => decide (m.id = sid)) with
    | none =>
      simp only [hfind] at he
      cases he
    | some du =>
      simp only [hfind] at he
      have he2 := eq_of_mem_socketTo he
      refine ⟨?_, ?_⟩
      · intro us
        rw [he2]
        intro hco
        cases hco
      · rw [he2]
        intro hco
        cases hco
  · intro hnonnil
    have hnotE : ¬ ((ms.filter (fun m => decide (m.id ≠ sid))).isEmpty = true) := by
      intro hE
      exact hnonnil (List.isEmpty_iff.mp hE)
    rw [if_neg hnotE]
    refine ⟨aget_aset_self _ _ _, ?_⟩
    intro m hm hmc
    obtain ⟨hmms, hmdec⟩ := List.mem_filter.mp hm
    have hmne : m.id ≠ sid := of_decide_eq_true hmdec
    obtain ⟨cnm, hgm, hccm⟩ := isConnected_some hmc
    have hcode : code ∈ cnm.sioRooms :=
      h5 (code, ms) (aget_mem hms) m hmms (m.id, cnm) (aget_mem hgm) rfl hccm
    have hentry : (m.id, cnm) ∈ aset s.conns sid ⟨false, some code, cn.username, []⟩ :=
      mem_aset_of_ne (aget_mem hgm) hmne
    constructor
    · exact List.mem_append.mpr (Or.inl (List.mem_append.mpr
        (Or.inr (mem_ioTo hentry hccm hcode))))
    · exact List.mem_append.mpr (Or.inr (mem_ioTo hentry hccm hcode))

/-- Claim C6: in every reachable server state, a join-room by a connected
    socket naming an existing room does not crash, appends the joiner to
    the member array, records roomCode and username on the socket,
    acknowledges the joiner with joined-room carrying the code, delivers
    user-joined to every other connected member of the room, and
    delivers the updated member list to every connected member including
    the joiner. -/
theorem C6_join_success (ops : List Op) (sid : Nat) (code : String) (un : Option String)
    (ms : List Member)
    (hconn : isConnected (run ops) sid = true)
    (hms : aget (run ops).rooms code = some ms) :
    (joinRoomH (run ops) sid ⟨some code, un⟩).isSome = true ∧
    aget (resultOrFrozen (run ops) (joinRoomH (run ops) sid ⟨some code, un⟩)).1.rooms code
        = some (ms ++ [⟨sid, un⟩]) ∧
    sessRoomCode (resultOrFrozen (run ops)
        (joinRoomH (run ops) sid ⟨some code, un⟩)).1 sid = some code ∧
    sessUsername (resultOrFrozen (run ops)
        (joinRoomH (run ops) sid ⟨some code, un⟩)).1 sid = un ∧
    (sid, OutEvent.joinedRoom code)
        ∈ (resultOrFrozen (run ops) (joinRoomH (run ops) sid ⟨some code, un⟩)).2 ∧
    (sid, OutEvent.updateUserList (ms ++ [⟨sid, un⟩]))
        ∈ (resultOrFrozen (run ops) (joinRoomH (run ops) sid ⟨some code, un⟩)).2 ∧
    (∀ m ∈ ms, isConnected (run ops) m.id = true → m.id ≠ sid →
      (m.id, OutEvent.userJoined ⟨sid, un⟩)
        ∈ (resultOrFrozen (run ops) (joinRoomH (run ops) sid ⟨some code, un⟩)).2) ∧
    (∀ m ∈ ms, isConnected (run ops) m.id = true →
      (m.id, OutEvent.updateUserList (ms ++ [⟨sid, un⟩]))
        ∈ (resultOrFrozen (run ops) (joinRoomH (run ops) sid ⟨some code, un⟩)).2) :=
  joinRoomH_success (run ops) sid code un ms (Inv_run ops) hconn hms

/-- Witness for C6: socket 2 joins the room created by socket 1 and the
    joined-room acknowledgement goes to socket 2. -/
theorem C6_witness :
    (2, OutEvent.joinedRoom "ROOMAA")
      ∈ (resultOrFrozen (run [Op.connect 1, Op.createRoom 1 "ROOMAA" ⟨some "ann"⟩,
            Op.connect 2])
          (joinRoomH (run [Op.connect 1, Op.createRoom 1 "ROOMAA" ⟨some "ann"⟩,
            Op.connect 2]) 2 ⟨some "ROOMAA", some "bob"⟩)).2 :=
  (C6_join_success [Op.connect 1, Op.createRoom 1 "ROOMAA" ⟨some "ann"⟩, Op.connect 2]
    2 "ROOMAA" (some "bob") [⟨1, some "ann"⟩] (by decide) (by decide)).2.2.2.2.1

/-- Claim C7: in every reachable server state, disconnecting a socket
    whose recorded room exists filters its entries out of the member
    array; if the array becomes empty the room is deleted and the output
    contains no member-list update and no share-stopped event at all;
    otherwise the room keeps the filtered array and every remaining
    connected member receives both the updated member list and a
    share-stopped event. -/
theorem C7_disconnect_cleanup (ops : List Op) (sid : Nat) (cn : Conn) (code : String)
    (ms : List Member)
    (hg : aget (run ops).conns sid = some cn)
    (hrc : cn.roomCode = some code) (hne : code ≠ "")
    (hms : aget (run ops).rooms code = some ms) :
    (ms.filter (fun m => decide (m.id ≠ sid)) = [] →
      aget (disconnectH (run ops) sid).1.rooms code = none ∧
      ∀ e ∈ (disconnectH (run ops) sid).2,
        (∀ us, e.2 ≠ OutEvent.updateUserList us) ∧ e.2 ≠ OutEvent.shareStopped) ∧
    (ms.filter (fun m => decide (m.id ≠ sid)) ≠ [] →
      aget (disconnectH (run ops) sid).1.rooms code
          = some (ms.filter (fun m => decide (m.id ≠ sid))) ∧
      ∀ m ∈ ms.filter (fun m => decide (m.id ≠ sid)), isConnected (run ops) m.id = true →
        (m.id, OutEvent.updateUserList (ms.filter (fun m => decide (m.id ≠ sid))))
            ∈ (disconnectH (run ops) sid).2 ∧
        (m.id, OutEvent.shareStopped) ∈ (disconnectH (run ops) sid).2) :=
  disconnectH_spec (run ops) sid cn code ms (Inv_run ops) hg hrc hne hms

/-- Witness for C7: socket 2 leaves the two-member room ROOMBB, the room
    survives holding only socket 1. -/
theorem C7_witness :
    aget (disconnectH (run [Op.connect 1, Op.createRoom 1 "ROOMBB" ⟨some "ann"⟩,
        Op.connect 2, Op.joinRoom 2 ⟨some "ROOMBB", some "ben"⟩]) 2).1.rooms "ROOMBB"
      = some (([⟨1, some "ann"⟩, ⟨2, some "ben"⟩] : List Member).filter
          (fun m => decide (m.id ≠ 2))) :=
  ((C7_disconnect_cleanup
      [Op.connect 1, Op.createRoom 1 "ROOMBB" ⟨some "ann"⟩,
        Op.connect 2, Op.joinRoom 2 ⟨some "ROOMBB", some "ben"⟩]
      2 ⟨true, some "ROOMBB", some "ben", ["ROOMBB"]⟩ "ROOMBB"
      [⟨1, some "ann"⟩, ⟨2, some "ben"⟩]
      (by decide) rfl (by decide) (by decide)).2 (by decide)).1

end ScreenShare
